import Mathlib

/-!
Verification of the commit-profile builder and compatibility scorer of the
gitcommit repository.

The builder (src/lib/parser.ts, function parseCommits, together with the
TRAIT_KEYWORDS table of src/lib/auth.ts) turns a list of commits into a
profile: a language distribution, a trait distribution, an activity score and
a highlight string.  The scorer (src/lib/matcher.ts, function
computeCompatibility) combines two profiles into one score.

Modelling conventions:
* JavaScript numbers are modelled as exact arithmetic: rationals where the
  source only adds, divides and rounds (trait and language fractions), reals
  where the source calls Math.exp or Math.sqrt (activity score, cosine
  similarity, final score).
* A JavaScript Record (an object used as a map) is modelled as an association
  list (insertion ordered, unique keys), except for the sparse vectors of the
  scorer, which are modelled as finitely supported functions so that the
  union-of-keys loops of the source become Finset sums.
* The timestamp string of a commit is modelled by the result of parsing it:
  the time value in milliseconds that (new Date(s)).getTime() yields, or none
  when the string does not parse (JavaScript then yields an Invalid Date whose
  time value is NaN, and that NaN propagates through the arithmetic; the
  constructor itself never throws).  Option ℝ with an absorbing none models
  exactly this NaN propagation.
* Math.round(x) is floor(x + 1/2) (halves round toward positive infinity).
-/

/-- Round to 4 decimal places, rational version: Math.round(n * 10000) / 10000
(round4 of src/lib/parser.ts applied to rational intermediate values). -/
def round4q (n : ℚ) : ℚ := (⌊n * 10000 + 1/2⌋ : ℚ) / 10000

/-- Round to 4 decimal places, real version: Math.round(n * 10000) / 10000
(round4 of src/lib/parser.ts and src/lib/matcher.ts). -/
noncomputable def round4 (n : ℝ) : ℝ := ((⌊n * 10000 + 1/2⌋ : ℤ) : ℝ) / 10000

/-- A commit (interface Commit of src/lib/auth.ts).  The date field models the
parse result of the ISO date string: some t when new Date(s) has time value t
milliseconds, none when the string cannot be parsed (Invalid Date / NaN). -/
structure Commit where
  sha : String
  message : String
  repo : String
  date : Option ℝ

/-- The trait keyword table (TRAIT_KEYWORDS of src/lib/auth.ts).  Every
pattern there is a case-insensitive alternation of literal substrings, so it
is modelled as the list of its lowercase alternatives; the only non-literal
piece, the regex docs?, matches a lowercased message exactly when "doc"
occurs in it, so the docs entry carries "doc" (dropping the redundant "docs"
case). -/
def TRAIT_KEYWORDS : List (String × List String) :=
  [("fixer", ["fix", "bug", "panic", "crash", "nullpointer", "error", "bugfix"]),
   ("tests", ["test", "spec", "assert", "integration test", "unit test"]),
   ("docs", ["readme", "doc", "comment"]),
   ("wip", ["wip", "temp", "prototype", "draft"]),
   ("chores", ["chore", "bump", "deps", "maintenance"]),
   ("chaotic", ["fuck", "shit", "finally", "lol", "omg", "whew", "screw"])]

/-- kw occurs as a contiguous substring of l. -/
def isSubstr (kw : List Char) : List Char → Bool
  | [] => kw.isEmpty
  | c :: rest => kw.isPrefixOf (c :: rest) || isSubstr kw rest

/-- Lowercase a string characterwise (message.toLowerCase() of the source). -/
def lowerStr (s : String) : String := ⟨s.data.map Char.toLower⟩

/-- pattern.test(message.toLowerCase()): the lowercased message contains one
of the keyword alternatives of the trait pattern. -/
def traitMatches (kws : List String) (msg : String) : Bool :=
  kws.any (fun kw => isSubstr kw.data (lowerStr msg).data)

/-- Trait counting and normalisation of parseCommits (src/lib/parser.ts): for
each trait, the number of commit messages its pattern matches, divided by the
total number of commits, rounded to 4 decimals.  Entries appear in the
insertion order of the traitCounts record, which is the order of the
TRAIT_KEYWORDS table. -/
def commitTraitsOf (msgs : List String) : List (String × ℚ) :=
  TRAIT_KEYWORDS.map (fun p =>
    (p.1, round4q ((msgs.countP (fun m => traitMatches p.2 m) : ℚ) / (msgs.length : ℚ))))

/-- langTotals[lang] = (langTotals[lang] || 0) + bytes of src/lib/parser.ts:
add bytes to the per-language running totals, keeping the first-insertion
order of a JavaScript object. -/
def bump (totals : List (String × ℚ)) (lang : String) (bytes : ℚ) : List (String × ℚ) :=
  match totals with
  | [] => [(lang, bytes)]
  | (l, b) :: rest =>
    if l = lang then (l, b + bytes) :: rest else (l, b) :: bump rest lang bytes

/-- new Set(commits.map(c => c.repo)) of src/lib/parser.ts: the distinct repo
names in first-occurrence order (JavaScript Set iteration order). -/
def userReposOf (repos : List String) : List String :=
  repos.foldl (fun acc r => if r ∈ acc then acc else acc ++ [r]) []

/-- Folding one repository language map into the (langTotals, grandTotal)
accumulator of src/lib/parser.ts. -/
def addRepoLangs (st : List (String × ℚ) × ℚ) (langs : List (String × ℚ)) :
    List (String × ℚ) × ℚ :=
  langs.foldl (fun st2 p => (bump st2.1 p.1 p.2, st2.2 + p.2)) st

/-- One iteration of the repository loop of src/lib/parser.ts: a repo absent
from repoLanguages contributes nothing, a present one adds its language
map. -/
def langStep (rl : List (String × List (String × ℚ)))
    (st : List (String × ℚ) × ℚ) (repo : String) : List (String × ℚ) × ℚ :=
  match List.lookup repo rl with
  | none => st
  | some langs => addRepoLangs st langs

/-- The (langTotals, grandTotal) pair after the aggregation loop of
src/lib/parser.ts: every distinct touched repo present in repoLanguages
contributes its byte counts once. -/
def langState (repos : List String) (rl : List (String × List (String × ℚ))) :
    List (String × ℚ) × ℚ :=
  (userReposOf repos).foldl (langStep rl) ([], 0)

/-- The languages record of parseCommits (src/lib/parser.ts): per-language
byte shares rounded to 4 decimals when a language map was supplied and the
grand total is positive, the empty map otherwise. -/
def languagesOf (repos : List String)
    (repoLanguages : Option (List (String × List (String × ℚ)))) :
    List (String × ℚ) :=
  match repoLanguages with
  | none => []
  | some rl =>
    if 0 < (langState repos rl).2 then
      (langState repos rl).1.map (fun p => (p.1, round4q (p.2 / (langState repos rl).2)))
    else []

/-- Addition of JavaScript numbers in the presence of NaN: none (NaN) is
absorbing. -/
def nanAdd : Option ℝ → Option ℝ → Option ℝ
  | some x, some y => some (x + y)
  | _, _ => none

/-- daysSince of src/lib/parser.ts: (now.getTime() - date.getTime()) divided
by the milliseconds of a day; none (NaN) when the date did not parse. -/
noncomputable def daysSince (date : Option ℝ) (now : ℝ) : Option ℝ :=
  date.map (fun t => (now - t) / (1000 * 60 * 60 * 24))

/-- Math.exp(-days / 30), the per-commit weight of src/lib/parser.ts; NaN
(none) propagates. -/
noncomputable def commitWeight (now : ℝ) (date : Option ℝ) : Option ℝ :=
  (daysSince date now).map (fun days => Real.exp (-days / 30))

/-- The activity score block of parseCommits (src/lib/parser.ts): sum the
weights, divide by min(100, number of commits), clamp to [0,1] and round;
a NaN (none) anywhere makes the whole result NaN (none). -/
noncomputable def activityScoreOf (dates : List (Option ℝ)) (now : ℝ) : Option ℝ :=
  ((dates.map (commitWeight now)).foldl nanAdd (some 0)).map
    (fun s => round4 (min 1 (max 0 (s / ((min 100 dates.length : ℕ) : ℝ)))))

/-- Codepoint-wise lexicographic strict comparison of character lists: the
effect of a.localeCompare(b) < 0 on the all-ASCII trait names. -/
def charListLt : List Char → List Char → Bool
  | _, [] => false
  | [], _ :: _ => true
  | a :: as, b :: bs =>
    if a.toNat < b.toNat then true
    else if b.toNat < a.toNat then false
    else charListLt as bs

/-- The sort comparator of the highlights block of src/lib/parser.ts:
descending by trait value, ties ascending by trait name (localeCompare).  On
entries with pairwise distinct names (always the case for the six traits)
this is a total order, so any sorting algorithm yields the sorted list of the
JavaScript sort. -/
def traitLe (p q : String × ℚ) : Bool :=
  if p.2 = q.2 then !charListLt q.1.data p.1.data else decide (q.2 < p.2)

/-- Insert an entry into a list sorted by traitLe. -/
def insertSorted (x : String × ℚ) : List (String × ℚ) → List (String × ℚ)
  | [] => [x]
  | y :: ys => if traitLe x y then x :: y :: ys else y :: insertSorted x ys

/-- Sort trait entries by traitLe (insertion sort). -/
def sortTraits : List (String × ℚ) → List (String × ℚ)
  | [] => []
  | x :: xs => insertSorted x (sortTraits xs)

/-- The highlights block of parseCommits (src/lib/parser.ts): entries with
positive value, sorted descending by value with alphabetical tie-break; the
names of the first two, joined with a comma and a space. -/
def highlightsOf (msgs : List String) : String :=
  String.intercalate ", "
    (((sortTraits ((commitTraitsOf msgs).filter (fun p => decide (0 < p.2)))).take 2).map
      (fun p => p.1))

/-- The value parseCommits returns (interface ProfileSummary of
src/lib/auth.ts, as produced by the builder): activityScore is an Option so
that the NaN produced by an unparseable timestamp is representable. -/
structure ParsedProfile where
  languages : List (String × ℚ)
  commitTraits : List (String × ℚ)
  activityScore : Option ℝ
  highlights : String

/-- parseCommits of src/lib/parser.ts.  The optional referenceDate argument
(defaulting to the current clock) is modelled as the required reference time
now, in milliseconds. -/
noncomputable def parseCommits (commits : List Commit)
    (repoLanguages : Option (List (String × List (String × ℚ)))) (now : ℝ) :
    ParsedProfile :=
  if commits.isEmpty then
    { languages := [], commitTraits := [], activityScore := some 0, highlights := "" }
  else
    { languages := languagesOf (commits.map (fun c => c.repo)) repoLanguages
      commitTraits := commitTraitsOf (commits.map (fun c => c.message))
      activityScore := activityScoreOf (commits.map (fun c => c.date)) now
      highlights := highlightsOf (commits.map (fun c => c.message)) }

/-- The error the specification attributes to the builder. -/
inductive ParseError where
  | malformedTimestamp : Commit → ParseError

/-- Modelled from the spec: sections 4.1 and 7 of the specification require
the profile builder to fail with a ParseError, propagated to the caller, when
a commit timestamp cannot be parsed, and to return the profile of the commit
list otherwise.  No such error channel exists in src/lib/parser.ts (new Date
never throws); this definition follows the words of the spec so that the spec
can be compared with the code. -/
noncomputable def specBuildProfile (commits : List Commit)
    (repoLanguages : Option (List (String × List (String × ℚ)))) (now : ℝ) :
    Except ParseError ParsedProfile :=
  match commits.find? (fun c => c.date.isNone) with
  | some c => Except.error (ParseError.malformedTimestamp c)
  | none => Except.ok (parseCommits commits repoLanguages now)

/-- A profile as consumed by the scorer (interface ProfileSummary of
src/lib/auth.ts): sparse language and trait vectors, activity score, the
display highlights and the optional timezone offset in hours. -/
structure ProfileSummary where
  languages : String →₀ ℝ
  commitTraits : String →₀ ℝ
  activityScore : ℝ
  highlights : String
  timezoneOffset : Option ℝ

/-- cosineSimilarity of src/lib/matcher.ts: dot product over the union of the
key sets divided by the product of the norms, and 0 when that product is 0. -/
noncomputable def cosineSimilarity (a b : String →₀ ℝ) : ℝ :=
  if Real.sqrt (∑ k ∈ a.support ∪ b.support, a k * a k) *
      Real.sqrt (∑ k ∈ a.support ∪ b.support, b k * b k) = 0 then 0
  else (∑ k ∈ a.support ∪ b.support, a k * b k) /
    (Real.sqrt (∑ k ∈ a.support ∪ b.support, a k * a k) *
      Real.sqrt (∑ k ∈ a.support ∪ b.support, b k * b k))

/-- The timezone block of computeCompatibility (src/lib/matcher.ts): linear
decay of the offset difference when both offsets are defined, 0.5 otherwise. -/
noncomputable def timezoneScore (a b : ProfileSummary) : ℝ :=
  match a.timezoneOffset, b.timezoneOffset with
  | some ta, some tb => max 0 (1 - |ta - tb| / 12)
  | _, _ => 0.5

/-- computeCompatibility of src/lib/matcher.ts: the weighted combination of
the four sub-metrics, rounded to 4 decimals. -/
noncomputable def computeCompatibility (a b : ProfileSummary) : ℝ :=
  round4 (0.4 * cosineSimilarity a.languages b.languages
    + 0.3 * cosineSimilarity a.commitTraits b.commitTraits
    + 0.2 * (1 - |a.activityScore - b.activityScore|)
    + 0.1 * timezoneScore a b)

/-- The profile of a user with no commits and no timezone: empty vectors,
zero activity. -/
noncomputable def emptyProfile : ProfileSummary :=
  { languages := 0, commitTraits := 0, activityScore := 0, highlights := "",
    timezoneOffset := none }

/-- Well-formedness of a scorer input, as the specification describes the
builder output: componentwise non-negative vectors and an activity score in
[0,1]. -/
def WellFormed (p : ProfileSummary) : Prop :=
  (∀ k, 0 ≤ p.languages k) ∧ (∀ k, 0 ≤ p.commitTraits k) ∧
    0 ≤ p.activityScore ∧ p.activityScore ≤ 1

/-! Helper lemmas about rounding. -/

lemma round4q_eq (q : ℚ) (z : ℤ) (h1 : (z : ℚ) ≤ q * 10000 + 1/2)
    (h2 : q * 10000 + 1/2 < z + 1) : round4q q = (z : ℚ) / 10000 := by
  unfold round4q
  rw [Int.floor_eq_iff.mpr ⟨h1, h2⟩]

lemma round4_eq (x : ℝ) (z : ℤ) (h1 : (z : ℝ) ≤ x * 10000 + 1/2)
    (h2 : x * 10000 + 1/2 < z + 1) : round4 x = (z : ℝ) / 10000 := by
  unfold round4
  rw [Int.floor_eq_iff.mpr ⟨h1, h2⟩]

lemma round4_nonneg {x : ℝ} (hx : 0 ≤ x) : 0 ≤ round4 x := by
  unfold round4
  apply div_nonneg _ (by norm_num)
  have h : (0 : ℝ) ≤ x * 10000 + 1/2 := by nlinarith
  exact_mod_cast Int.floor_nonneg.mpr h

lemma round4_le_one {x : ℝ} (hx : x ≤ 1) : round4 x ≤ 1 := by
  unfold round4
  rw [div_le_one (by norm_num)]
  have h1 : x * 10000 + 1/2 ≤ 10000.5 := by nlinarith
  have h2 : (⌊x * 10000 + 1/2⌋ : ℝ) < 10001 :=
    lt_of_le_of_lt (le_trans (Int.floor_le _) h1) (by norm_num)
  have h3 : (⌊x * 10000 + 1/2⌋ : ℤ) < 10001 := by exact_mod_cast h2
  have h4 : (⌊x * 10000 + 1/2⌋ : ℤ) ≤ 10000 := by omega
  exact_mod_cast h4

lemma round4q_nonneg {x : ℚ} (hx : 0 ≤ x) : 0 ≤ round4q x := by
  unfold round4q
  apply div_nonneg _ (by norm_num)
  have h : (0 : ℚ) ≤ x * 10000 + 1/2 := by nlinarith
  exact_mod_cast Int.floor_nonneg.mpr h

lemma round4q_le_one {x : ℚ} (hx : x ≤ 1) : round4q x ≤ 1 := by
  unfold round4q
  rw [div_le_one (by norm_num)]
  have h1 : x * 10000 + 1/2 ≤ 10000.5 := by nlinarith
  have h2 : (⌊x * 10000 + 1/2⌋ : ℚ) < 10001 :=
    lt_of_le_of_lt (le_trans (Int.floor_le _) h1) (by norm_num)
  have h3 : (⌊x * 10000 + 1/2⌋ : ℤ) < 10001 := by exact_mod_cast h2
  have h4 : (⌊x * 10000 + 1/2⌋ : ℤ) ≤ 10000 := by omega
  exact_mod_cast h4

lemma round4q_err (x : ℚ) : |round4q x - x| ≤ 1/20000 := by
  unfold round4q
  have h1 : (⌊x * 10000 + 1/2⌋ : ℚ) ≤ x * 10000 + 1/2 := Int.floor_le _
  have h2 : x * 10000 + 1/2 - 1 < (⌊x * 10000 + 1/2⌋ : ℚ) := Int.sub_one_lt_floor _
  rw [abs_le]
  constructor <;> [nlinarith; nlinarith]

/-! Helper lemmas about the scorer. -/

lemma cosineSimilarity_comm (a b : String →₀ ℝ) :
    cosineSimilarity a b = cosineSimilarity b a := by
  have hu : b.support ∪ a.support = a.support ∪ b.support := Finset.union_comm _ _
  have hd : (∑ k ∈ a.support ∪ b.support, b k * a k)
      = ∑ k ∈ a.support ∪ b.support, a k * b k :=
    Finset.sum_congr rfl (fun k _ => mul_comm _ _)
  unfold cosineSimilarity
  rw [hu, hd, mul_comm (Real.sqrt (∑ k ∈ a.support ∪ b.support, b k * b k))]

lemma cosineSimilarity_nonneg (a b : String →₀ ℝ) (ha : ∀ k, 0 ≤ a k)
    (hb : ∀ k, 0 ≤ b k) : 0 ≤ cosineSimilarity a b := by
  unfold cosineSimilarity
  split
  · exact le_refl 0
  · exact div_nonneg (Finset.sum_nonneg fun k _ => mul_nonneg (ha k) (hb k))
      (mul_nonneg (Real.sqrt_nonneg _) (Real.sqrt_nonneg _))

lemma cosineSimilarity_le_one (a b : String →₀ ℝ) : cosineSimilarity a b ≤ 1 := by
  unfold cosineSimilarity
  split
  · norm_num
  next h =>
    have hmag : 0 < Real.sqrt (∑ k ∈ a.support ∪ b.support, a k * a k) *
        Real.sqrt (∑ k ∈ a.support ∪ b.support, b k * b k) :=
      lt_of_le_of_ne (mul_nonneg (Real.sqrt_nonneg _) (Real.sqrt_nonneg _)) (Ne.symm h)
    rw [div_le_one hmag]
    have hcs := Real.sum_mul_le_sqrt_mul_sqrt (a.support ∪ b.support)
      (fun k => a k) (fun k => b k)
    simpa [pow_two] using hcs

lemma cosineSimilarity_zero_norm (a b : String →₀ ℝ)
    (h : (∑ k ∈ a.support ∪ b.support, a k * a k) = 0 ∨
      (∑ k ∈ a.support ∪ b.support, b k * b k) = 0) :
    cosineSimilarity a b = 0 := by
  unfold cosineSimilarity
  rcases h with h | h
  · rw [h, Real.sqrt_zero, zero_mul, if_pos rfl]
  · rw [h, Real.sqrt_zero, mul_zero, if_pos rfl]

lemma cosineSimilarity_zero_zero : cosineSimilarity 0 0 = 0 := by
  apply cosineSimilarity_zero_norm
  left
  simp

lemma cosineSimilarity_self {v : String →₀ ℝ} (hv : v ≠ 0) :
    cosineSimilarity v v = 1 := by
  have hS : 0 < ∑ k ∈ v.support ∪ v.support, v k * v k := by
    rw [Finset.union_self]
    obtain ⟨k0, hk0⟩ := Finsupp.ne_iff.mp hv
    simp only [Finsupp.coe_zero, Pi.zero_apply] at hk0
    exact Finset.sum_pos' (fun k _ => mul_self_nonneg _)
      ⟨k0, Finsupp.mem_support_iff.mpr hk0, mul_self_pos.mpr hk0⟩
  have hsq : Real.sqrt (∑ k ∈ v.support ∪ v.support, v k * v k) *
      Real.sqrt (∑ k ∈ v.support ∪ v.support, v k * v k)
      = ∑ k ∈ v.support ∪ v.support, v k * v k := Real.mul_self_sqrt hS.le
  unfold cosineSimilarity
  rw [hsq, if_neg hS.ne', div_self hS.ne']

lemma timezoneScore_comm (a b : ProfileSummary) : timezoneScore a b = timezoneScore b a := by
  unfold timezoneScore
  rcases a.timezoneOffset with _ | ta <;> rcases b.timezoneOffset with _ | tb <;>
    simp [abs_sub_comm]

lemma timezoneScore_nonneg (a b : ProfileSummary) : 0 ≤ timezoneScore a b := by
  unfold timezoneScore
  rcases a.timezoneOffset with _ | ta <;> rcases b.timezoneOffset with _ | tb <;>
    simp <;> norm_num [le_max_left]

lemma timezoneScore_le_one (a b : ProfileSummary) : timezoneScore a b ≤ 1 := by
  unfold timezoneScore
  rcases a.timezoneOffset with _ | ta <;> rcases b.timezoneOffset with _ | tb
  · norm_num
  · norm_num
  · norm_num
  · apply max_le (by norm_num)
    have h : 0 ≤ |ta - tb| / 12 := by positivity
    linarith

/-- C1: for every pair of well-formed ProfileSummary values (all languages and
commitTraits values non-negative, activityScore in [0,1]),
computeCompatibility returns a score with 0 ≤ score ≤ 1; being a total
function it produces no error, on empty profiles included. -/
theorem c1_compatibility_bounds (a b : ProfileSummary) (ha : WellFormed a)
    (hb : WellFormed b) :
    0 ≤ computeCompatibility a b ∧ computeCompatibility a b ≤ 1 := by
  obtain ⟨haL, haT, haA0, haA1⟩ := ha
  obtain ⟨hbL, hbT, hbA0, hbA1⟩ := hb
  have hT0 := cosineSimilarity_nonneg a.languages b.languages haL hbL
  have hT1 := cosineSimilarity_le_one a.languages b.languages
  have hR0 := cosineSimilarity_nonneg a.commitTraits b.commitTraits haT hbT
  have hR1 := cosineSimilarity_le_one a.commitTraits b.commitTraits
  have hA0 : 0 ≤ 1 - |a.activityScore - b.activityScore| := by
    rw [sub_nonneg, abs_le]
    constructor <;> linarith
  have hA1 : 1 - |a.activityScore - b.activityScore| ≤ 1 := by
    have h := abs_nonneg (a.activityScore - b.activityScore)
    linarith
  have hL0 := timezoneScore_nonneg a b
  have hL1 := timezoneScore_le_one a b
  unfold computeCompatibility
  constructor
  · apply round4_nonneg
    linarith
  · apply round4_le_one
    linarith

/-- Witness for C1: the two-empty-profiles pair is well-formed and scores in
[0,1]. -/
theorem c1_compatibility_bounds_witness :
    0 ≤ computeCompatibility emptyProfile emptyProfile ∧
      computeCompatibility emptyProfile emptyProfile ≤ 1 := by
  have hw : WellFormed emptyProfile := by
    refine ⟨fun k => ?_, fun k => ?_, ?_, ?_⟩ <;> norm_num [emptyProfile]
  exact c1_compatibility_bounds emptyProfile emptyProfile hw hw

/-- C2: computeCompatibility is symmetric in its two profiles, timezone
presence or absence included. -/
theorem c2_compatibility_symm (a b : ProfileSummary) :
    computeCompatibility a b = computeCompatibility b a := by
  unfold computeCompatibility
  rw [cosineSimilarity_comm a.languages b.languages,
    cosineSimilarity_comm a.commitTraits b.commitTraits,
    timezoneScore_comm a b, abs_sub_comm a.activityScore b.activityScore]

/-- C7: cosine similarity is 0 (a real number, never an undefined value)
whenever either input vector has zero norm, and the compatibility of two
empty profiles is exactly 0.25. -/
theorem c7_zero_norm_cosine :
    (∀ a b : String →₀ ℝ,
      ((∑ k ∈ a.support ∪ b.support, a k * a k) = 0 ∨
        (∑ k ∈ a.support ∪ b.support, b k * b k) = 0) →
      cosineSimilarity a b = 0) ∧
    computeCompatibility emptyProfile emptyProfile = 0.25 := by
  refine ⟨cosineSimilarity_zero_norm, ?_⟩
  unfold computeCompatibility
  have h1 : emptyProfile.languages = 0 := rfl
  have h2 : emptyProfile.commitTraits = 0 := rfl
  have h3 : timezoneScore emptyProfile emptyProfile = 0.5 := rfl
  have h4 : emptyProfile.activityScore = 0 := rfl
  rw [h1, h2, h3, h4, cosineSimilarity_zero_zero]
  rw [show (0.4 * (0:ℝ) + 0.3 * 0 + 0.2 * (1 - |0 - 0|) + 0.1 * 0.5) = 0.25 by
    norm_num]
  rw [round4_eq _ 2500 (by norm_num) (by norm_num)]
  norm_num

/-- Witness for C7: the zero-norm clause applied at the empty vectors. -/
theorem c7_zero_norm_cosine_witness : cosineSimilarity 0 0 = 0 :=
  c7_zero_norm_cosine.1 0 0 (Or.inl (by simp))

/-- A profile with empty vectors, zero activity and a given timezone offset;
used to exhibit that identical-vector profiles with empty vectors do not
score 0.9. -/
noncomputable def emptyTzProfile (tz : ℝ) : ProfileSummary :=
  { languages := 0, commitTraits := 0, activityScore := 0, highlights := "",
    timezoneOffset := some tz }

/-- Counterexample for C8: two profiles identical in languages, commitTraits
and activityScore whose timezone offsets differ by exactly 12 hours, but with
empty vectors; their score is 0.2, not 0.9 (the language and trait cosines of
empty vectors are 0, not 1). -/
theorem c8_counterexample :
    computeCompatibility (emptyTzProfile 0) (emptyTzProfile 12) = 0.2 ∧
      computeCompatibility (emptyTzProfile 0) (emptyTzProfile 12) ≠ 0.9 := by
  have hts : timezoneScore (emptyTzProfile 0) (emptyTzProfile 12) = 0 := by
    unfold timezoneScore emptyTzProfile
    norm_num
  have h : computeCompatibility (emptyTzProfile 0) (emptyTzProfile 12) = 0.2 := by
    unfold computeCompatibility
    rw [hts]
    have h1 : (emptyTzProfile 0).languages = 0 := rfl
    have h2 : (emptyTzProfile 0).commitTraits = 0 := rfl
    have h3 : (emptyTzProfile 12).languages = 0 := rfl
    have h4 : (emptyTzProfile 12).commitTraits = 0 := rfl
    have h5 : (emptyTzProfile 0).activityScore = 0 := rfl
    have h6 : (emptyTzProfile 12).activityScore = 0 := rfl
    rw [h1, h2, h3, h4, h5, h6, cosineSimilarity_zero_zero]
    rw [show (0.4 * (0:ℝ) + 0.3 * 0 + 0.2 * (1 - |0 - 0|) + 0.1 * 0) = 0.2 by
      norm_num]
    rw [round4_eq _ 2000 (by norm_num) (by norm_num)]
    norm_num
  exact ⟨h, by rw [h]; norm_num⟩

/-- C8 (amended): the timezone sub-metric equals max(0, 1 - |Δ|/12) when both
offsets are defined (hence is never negative and is 0 from a 12-hour
difference on), equals 0.5 when either offset is missing, and two profiles
identical in languages, commitTraits and activityScore whose offsets differ
by exactly 12 hours score exactly 0.9 provided their languages and
commitTraits vectors are non-zero (with empty vectors the cosine terms are 0
and the score is 0.2, see the counterexample). -/
theorem c8_timezone_amended :
    (∀ a b : ProfileSummary, ∀ ta tb : ℝ, a.timezoneOffset = some ta →
      b.timezoneOffset = some tb → timezoneScore a b = max 0 (1 - |ta - tb| / 12)) ∧
    (∀ a b : ProfileSummary, 0 ≤ timezoneScore a b) ∧
    (∀ a b : ProfileSummary, ∀ ta tb : ℝ, a.timezoneOffset = some ta →
      b.timezoneOffset = some tb → 12 ≤ |ta - tb| → timezoneScore a b = 0) ∧
    (∀ a b : ProfileSummary, a.timezoneOffset = none ∨ b.timezoneOffset = none →
      timezoneScore a b = 0.5) ∧
    (∀ a b : ProfileSummary, ∀ ta tb : ℝ,
      a.languages = b.languages → a.commitTraits = b.commitTraits →
      a.activityScore = b.activityScore → a.languages ≠ 0 → a.commitTraits ≠ 0 →
      a.timezoneOffset = some ta → b.timezoneOffset = some tb → |ta - tb| = 12 →
      computeCompatibility a b = 0.9) := by
  have hdef : ∀ a b : ProfileSummary, ∀ ta tb : ℝ, a.timezoneOffset = some ta →
      b.timezoneOffset = some tb → timezoneScore a b = max 0 (1 - |ta - tb| / 12) := by
    intro a b ta tb hta htb
    unfold timezoneScore
    rw [hta, htb]
  refine ⟨hdef, timezoneScore_nonneg, ?_, ?_, ?_⟩
  · intro a b ta tb hta htb h12
    rw [hdef a b ta tb hta htb]
    have h : 1 - |ta - tb| / 12 ≤ 0 := by linarith
    exact max_eq_left h
  · intro a b h
    unfold timezoneScore
    rcases h with h | h
    · rw [h]
    · rw [h]
      rcases a.timezoneOffset with _ | ta <;> rfl
  · intro a b ta tb hL hT hA hLne hTne hta htb habs
    have hts : timezoneScore a b = 0 := by
      rw [hdef a b ta tb hta htb, habs]
      norm_num
    unfold computeCompatibility
    rw [hts, hL, hT, hA, cosineSimilarity_self (hL ▸ hLne),
      cosineSimilarity_self (hT ▸ hTne), sub_self, abs_zero]
    rw [show (0.4 * (1:ℝ) + 0.3 * 1 + 0.2 * (1 - 0) + 0.1 * 0) = 0.9 by norm_num]
    rw [round4_eq _ 9000 (by norm_num) (by norm_num)]
    norm_num

/-- A profile with one-entry vectors, used as the witness input for the
amended C8. -/
noncomputable def singleVecProfile (tz : ℝ) : ProfileSummary :=
  { languages := Finsupp.single "TypeScript" 1,
    commitTraits := Finsupp.single "fixer" 1,
    activityScore := 0.5, highlights := "", timezoneOffset := some tz }

/-- Witness for the amended C8: two identical one-entry profiles 12 hours
apart score exactly 0.9. -/
theorem c8_timezone_amended_witness :
    computeCompatibility (singleVecProfile 0) (singleVecProfile 12) = 0.9 := by
  apply c8_timezone_amended.2.2.2.2 (singleVecProfile 0) (singleVecProfile 12) 0 12
  · rfl
  · rfl
  · rfl
  · exact fun h => one_ne_zero (Finsupp.single_eq_zero.mp h)
  · exact fun h => one_ne_zero (Finsupp.single_eq_zero.mp h)
  · rfl
  · rfl
  · norm_num

/-! Helper lemmas about NaN propagation in the activity sum. -/

lemma foldl_nanAdd_none (ws : List (Option ℝ)) : ws.foldl nanAdd none = none := by
  induction ws with
  | nil => rfl
  | cons w ws ih =>
    have h : nanAdd none w = none := by cases w <;> rfl
    simp only [List.foldl_cons, h, ih]

lemma foldl_nanAdd_eq_none (ws : List (Option ℝ)) :
    ∀ x : ℝ, (ws.foldl nanAdd (some x) = none ↔ ∃ w ∈ ws, w = none) := by
  induction ws with
  | nil =>
    intro x
    simp
  | cons w ws ih =>
    intro x
    cases w with
    | none =>
      have h : nanAdd (some x) none = none := rfl
      simp [List.foldl_cons, h, foldl_nanAdd_none]
    | some y =>
      have h : nanAdd (some x) (some y) = some (x + y) := rfl
      simp only [List.foldl_cons, h, ih]
      simp

/-- The commit used as the malformed-timestamp input. -/
noncomputable def badCommit : Commit :=
  { sha := "deadbeef", message := "fix stuff", repo := "r/x", date := none }

/-- Counterexample for C3: on a commit whose timestamp does not parse, the
builder the spec describes fails with a ParseError, but parseCommits as coded
returns normally, with a NaN (none) activityScore instead of an error. -/
theorem c3_counterexample :
    specBuildProfile [badCommit] none 0
        = Except.error (ParseError.malformedTimestamp badCommit) ∧
      (parseCommits [badCommit] none 0).activityScore = none := by
  constructor
  · simp [specBuildProfile, badCommit, List.find?]
  · simp [parseCommits, activityScoreOf, commitWeight, daysSince, nanAdd, badCommit]

/-- C3 (amended): parseCommits never throws; it returns a profile for every
commit list, and its activityScore is NaN (none) exactly when the list
contains a commit whose timestamp cannot be parsed (on an all-parseable list
the activity score is a real number). -/
theorem c3_no_error_nan (commits : List Commit)
    (rl : Option (List (String × List (String × ℚ)))) (now : ℝ) :
    (parseCommits commits rl now).activityScore = none ↔
      ∃ c ∈ commits, c.date = none := by
  cases hE : commits.isEmpty with
  | true =>
    have he : commits = [] := by
      cases commits with
      | nil => rfl
      | cons c cs => simp [List.isEmpty] at hE
    subst he
    simp [parseCommits]
  | false =>
    simp only [parseCommits, hE, Bool.false_eq_true, if_false]
    unfold activityScoreOf
    rw [Option.map_eq_none']
    rw [foldl_nanAdd_eq_none]
    constructor
    · rintro ⟨w, hw, hwn⟩
      obtain ⟨d, hd, hdw⟩ := List.mem_map.mp hw
      obtain ⟨c, hc, hcd⟩ := List.mem_map.mp hd
      refine ⟨c, hc, ?_⟩
      subst hdw hcd
      cases hda : c.date with
      | none => rfl
      | some t => simp [commitWeight, daysSince, hda] at hwn
    · rintro ⟨c, hc, hcd⟩
      refine ⟨commitWeight now c.date, ?_, ?_⟩
      · exact List.mem_map.mpr ⟨c.date, List.mem_map.mpr ⟨c, hc, rfl⟩, rfl⟩
      · rw [hcd]
        rfl

lemma foldl_nanAdd_replicate (n : ℕ) (e : ℝ) :
    ∀ x : ℝ, (List.replicate n (some e)).foldl nanAdd (some x) = some (x + n * e) := by
  induction n with
  | zero =>
    intro x
    simp
  | succ n ih =>
    intro x
    rw [List.replicate_succ, List.foldl_cons,
      show nanAdd (some x) (some e) = some (x + e) from rfl, ih]
    rw [Option.some.injEq]
    push_cast
    ring

/-- C6: five commits all exactly 30 days (2592000000 milliseconds) before the
reference time give activityScore 0.3679: each weight is exp(-30/30), the sum
is divided by min(100, 5) = 5, clamped to [0,1] and rounded to 4 decimals. -/
theorem c6_activity_decay (commits : List Commit)
    (rl : Option (List (String × List (String × ℚ)))) (t : ℝ)
    (hdates : commits.map (fun c => c.date)
      = List.replicate 5 (some (t - 2592000000))) :
    (parseCommits commits rl t).activityScore = some 0.3679 := by
  have hne : commits.isEmpty = false := by
    cases commits with
    | nil => simp at hdates
    | cons c cs => rfl
  simp only [parseCommits, hne, Bool.false_eq_true, if_false]
  unfold activityScoreOf
  rw [hdates, List.map_replicate]
  have hw : commitWeight t (some (t - 2592000000)) = some (Real.exp (-1)) := by
    unfold commitWeight daysSince
    rw [Option.map_some', Option.map_some', Option.some.injEq]
    have hd : t - (t - 2592000000) = 2592000000 := by ring
    rw [hd]
    norm_num
  rw [hw, foldl_nanAdd_replicate, Option.map_some', Option.some.injEq]
  have hlen : (List.replicate 5 (some (t - 2592000000))).length = 5 := by simp
  rw [hlen]
  have hmin : (min 100 5 : ℕ) = 5 := by norm_num
  rw [hmin]
  have hdiv : (0 + ((5:ℕ):ℝ) * Real.exp (-1)) / ((5:ℕ):ℝ) = Real.exp (-1) := by
    push_cast
    ring
  rw [hdiv]
  have hpos : (0:ℝ) < Real.exp (-1) := Real.exp_pos _
  have hlt1 : Real.exp (-1) < 1 := by
    rw [show (1:ℝ) = Real.exp 0 from (Real.exp_zero).symm]
    exact Real.exp_lt_exp.mpr (by norm_num)
  rw [max_eq_right hpos.le, min_eq_right hlt1.le]
  have hinv : Real.exp (-1) = (Real.exp 1)⁻¹ := by rw [Real.exp_neg]
  have hgt := Real.exp_one_gt_d9
  have hlt := Real.exp_one_lt_d9
  have hy : Real.exp 1 * (Real.exp 1)⁻¹ = 1 := mul_inv_cancel₀ (Real.exp_pos 1).ne'
  have hinvpos : (0:ℝ) < (Real.exp 1)⁻¹ := inv_pos.mpr (Real.exp_pos 1)
  rw [round4_eq _ 3679 ?hb1 ?hb2]
  · norm_num
  case hb1 =>
    rw [hinv]
    nlinarith [hy, hlt, mul_pos hinvpos (sub_pos.mpr hlt)]
  case hb2 =>
    rw [hinv]
    nlinarith [hy, hgt, mul_pos hinvpos (sub_pos.mpr hgt)]

/-- The five 30-day-old commits used as the C6 witness input. -/
noncomputable def oldCommits : List Commit :=
  [{ sha := "c1", message := "old commit 1", repo := "test/repo", date := some (-2592000000) },
   { sha := "c2", message := "old commit 2", repo := "test/repo", date := some (-2592000000) },
   { sha := "c3", message := "old commit 3", repo := "test/repo", date := some (-2592000000) },
   { sha := "c4", message := "old commit 4", repo := "test/repo", date := some (-2592000000) },
   { sha := "c5", message := "old commit 5", repo := "test/repo", date := some (-2592000000) }]

/-- Witness for C6: the concrete five-commit list, 30 days old at reference
time 0, scores 0.3679. -/
theorem c6_activity_decay_witness :
    (parseCommits oldCommits none 0).activityScore = some 0.3679 := by
  apply c6_activity_decay oldCommits none 0
  simp [oldCommits, List.replicate]

/-- C9: for every non-empty commit list, commitTraits carries exactly the six
trait keys in table order — zero-valued traits included — and every value
lies in [0,1]. -/
theorem c9_trait_keys (commits : List Commit)
    (rl : Option (List (String × List (String × ℚ)))) (now : ℝ)
    (hne : commits ≠ []) :
    (parseCommits commits rl now).commitTraits.map (fun p => p.1)
        = ["fixer", "tests", "docs", "wip", "chores", "chaotic"] ∧
      ∀ p ∈ (parseCommits commits rl now).commitTraits, 0 ≤ p.2 ∧ p.2 ≤ 1 := by
  have hE : commits.isEmpty = false := by
    cases commits with
    | nil => exact absurd rfl hne
    | cons c cs => rfl
  simp only [parseCommits, hE, Bool.false_eq_true, if_false]
  constructor
  · unfold commitTraitsOf
    rw [List.map_map]
    rfl
  · intro p hp
    unfold commitTraitsOf at hp
    obtain ⟨q, hq, hpe⟩ := List.mem_map.mp hp
    have hlen : 0 < (commits.map (fun c => c.message)).length := by
      cases commits with
      | nil => exact absurd rfl hne
      | cons c cs => simp
    have hlenq : (0:ℚ) < ((commits.map (fun c => c.message)).length : ℚ) := by
      exact_mod_cast hlen
    have hcnt : ((commits.map (fun c => c.message)).countP
        (fun m => traitMatches q.2 m) : ℚ)
        ≤ ((commits.map (fun c => c.message)).length : ℚ) := by
      exact_mod_cast List.countP_le_length _
    rw [← hpe]
    constructor
    · exact round4q_nonneg (div_nonneg (by positivity) hlenq.le)
    · exact round4q_le_one ((div_le_one hlenq).mpr hcnt)

/-- The one-commit list used as the C9 witness input. -/
noncomputable def oneCommit : List Commit :=
  [{ sha := "s", message := "hello world", repo := "r", date := some 0 }]

/-- Witness for C9: the six keys and the bounds at a concrete one-commit
list. -/
theorem c9_trait_keys_witness :
    (parseCommits oneCommit none 0).commitTraits.map (fun p => p.1)
        = ["fixer", "tests", "docs", "wip", "chores", "chaotic"] ∧
      ∀ p ∈ (parseCommits oneCommit none 0).commitTraits, 0 ≤ p.2 ∧ p.2 ≤ 1 :=
  c9_trait_keys oneCommit none 0 (by simp [oneCommit])

/-- C10: trait matching is unanchored substring matching over the lowercased
message — any commit whose message contains a keyword of a trait as a
substring (also inside a longer word) matches that trait and makes its count
positive. -/
theorem c10_substring_matching (kws : List String) (kw msg : String)
    (hmem : kw ∈ kws) (hsub : isSubstr kw.data (lowerStr msg).data = true) :
    traitMatches kws msg = true ∧
      ∀ msgs : List String, msg ∈ msgs →
        0 < msgs.countP (fun m => traitMatches kws m) := by
  have hm : traitMatches kws msg = true := by
    unfold traitMatches
    rw [List.any_eq_true]
    exact ⟨kw, hmem, hsub⟩
  refine ⟨hm, fun msgs hmsg => ?_⟩
  rw [List.countP_pos_iff]
  exact ⟨msg, hmsg, hm⟩

/-- Witness for C10: "Docker" matches docs via the substring "doc", "latest"
matches tests via the substring "test", "template" matches wip via the
substring "temp", each against its TRAIT_KEYWORDS entry. -/
theorem c10_substring_matching_witness :
    traitMatches ((TRAIT_KEYWORDS.lookup "docs").getD []) "reorganize Docker setup" = true ∧
      traitMatches ((TRAIT_KEYWORDS.lookup "tests").getD []) "pin latest release" = true ∧
      traitMatches ((TRAIT_KEYWORDS.lookup "wip").getD []) "use template engine" = true :=
  ⟨(c10_substring_matching _ "doc" _ (by decide) (by decide)).1,
   (c10_substring_matching _ "test" _ (by decide) (by decide)).1,
   (c10_substring_matching _ "temp" _ (by decide) (by decide)).1⟩

/-! Evaluation lemmas for the five-commit trait scenario. -/

lemma round4q_two_fifths : round4q (((2:ℕ):ℚ) / ((5:ℕ):ℚ)) = 0.4 := by
  rw [show (((2:ℕ):ℚ) / ((5:ℕ):ℚ)) = 2/5 by norm_num,
    round4q_eq _ 4000 (by norm_num) (by norm_num)]
  norm_num

lemma round4q_one_fifth : round4q (((1:ℕ):ℚ) / ((5:ℕ):ℚ)) = 0.2 := by
  rw [show (((1:ℕ):ℚ) / ((5:ℕ):ℚ)) = 1/5 by norm_num,
    round4q_eq _ 2000 (by norm_num) (by norm_num)]
  norm_num

lemma round4q_zero_fifths : round4q (((0:ℕ):ℚ) / ((5:ℕ):ℚ)) = 0 := by
  rw [show (((0:ℕ):ℚ) / ((5:ℕ):ℚ)) = 0 by norm_num,
    round4q_eq _ 0 (by norm_num) (by norm_num)]
  norm_num

lemma commitTraitsOf_scenario :
    commitTraitsOf ["fix: resolve null pointer bug", "fix: crash on login",
      "add unit test for parser", "update README docs", "chore: bump dependencies"]
    = [("fixer", 0.4), ("tests", 0.2), ("docs", 0.2), ("wip", 0),
       ("chores", 0.2), ("chaotic", 0)] := by
  have h1 : List.countP (fun m => traitMatches
      ["fix", "bug", "panic", "crash", "nullpointer", "error", "bugfix"] m)
      ["fix: resolve null pointer bug", "fix: crash on login",
        "add unit test for parser", "update README docs",
        "chore: bump dependencies"] = 2 := by decide
  have h2 : List.countP (fun m => traitMatches
      ["test", "spec", "assert", "integration test", "unit test"] m)
      ["fix: resolve null pointer bug", "fix: crash on login",
        "add unit test for parser", "update README docs",
        "chore: bump dependencies"] = 1 := by decide
  have h3 : List.countP (fun m => traitMatches ["readme", "doc", "comment"] m)
      ["fix: resolve null pointer bug", "fix: crash on login",
        "add unit test for parser", "update README docs",
        "chore: bump dependencies"] = 1 := by decide
  have h4 : List.countP (fun m => traitMatches ["wip", "temp", "prototype", "draft"] m)
      ["fix: resolve null pointer bug", "fix: crash on login",
        "add unit test for parser", "update README docs",
        "chore: bump dependencies"] = 0 := by decide
  have h5 : List.countP (fun m => traitMatches ["chore", "bump", "deps", "maintenance"] m)
      ["fix: resolve null pointer bug", "fix: crash on login",
        "add unit test for parser", "update README docs",
        "chore: bump dependencies"] = 1 := by decide
  have h6 : List.countP (fun m => traitMatches
      ["fuck", "shit", "finally", "lol", "omg", "whew", "screw"] m)
      ["fix: resolve null pointer bug", "fix: crash on login",
        "add unit test for parser", "update README docs",
        "chore: bump dependencies"] = 0 := by decide
  unfold commitTraitsOf TRAIT_KEYWORDS
  simp only [List.map_cons, List.map_nil, List.length_cons, List.length_nil]
  rw [h1, h2, h3, h4, h5, h6]
  rw [show ((0:ℕ) + 1 + 1 + 1 + 1 + 1) = 5 by norm_num]
  rw [round4q_two_fifths, round4q_one_fifth, round4q_zero_fifths]

lemma highlightsOf_scenario :
    highlightsOf ["fix: resolve null pointer bug", "fix: crash on login",
      "add unit test for parser", "update README docs", "chore: bump dependencies"]
    = "fixer, chores" := by
  unfold highlightsOf
  rw [commitTraitsOf_scenario]
  have hf : List.filter (fun p => decide (0 < p.2))
      [("fixer", (0.4:ℚ)), ("tests", 0.2), ("docs", 0.2), ("wip", 0),
        ("chores", 0.2), ("chaotic", 0)]
      = [("fixer", 0.4), ("tests", 0.2), ("docs", 0.2), ("chores", 0.2)] := by
    norm_num [List.filter]
  rw [hf]
  have t_dc : traitLe ("docs", (0.2:ℚ)) ("chores", 0.2) = false := by
    unfold traitLe
    rw [if_pos rfl]
    decide
  have t_tc : traitLe ("tests", (0.2:ℚ)) ("chores", 0.2) = false := by
    unfold traitLe
    rw [if_pos rfl]
    decide
  have t_td : traitLe ("tests", (0.2:ℚ)) ("docs", 0.2) = false := by
    unfold traitLe
    rw [if_pos rfl]
    decide
  have t_fc : traitLe ("fixer", (0.4:ℚ)) ("chores", 0.2) = true := by
    unfold traitLe
    rw [if_neg (by norm_num), decide_eq_true_eq]
    norm_num
  have hs : sortTraits [("fixer", (0.4:ℚ)), ("tests", 0.2), ("docs", 0.2),
      ("chores", 0.2)]
      = [("fixer", 0.4), ("chores", 0.2), ("docs", 0.2), ("tests", 0.2)] := by
    simp only [sortTraits, insertSorted, t_dc, t_tc, t_td, t_fc]
    simp
  rw [hs]
  rfl

/-- C5: on the five scenario messages (any shas, repos and timestamps), the
builder returns trait values fixer 0.4, tests 0.2, docs 0.2, wip 0, chores
0.2, chaotic 0, and highlights "fixer, chores" (top two by descending value,
alphabetical tie-break). -/
theorem c5_trait_scenario (commits : List Commit)
    (rl : Option (List (String × List (String × ℚ)))) (now : ℝ)
    (hmsgs : commits.map (fun c => c.message)
      = ["fix: resolve null pointer bug", "fix: crash on login",
          "add unit test for parser", "update README docs",
          "chore: bump dependencies"]) :
    (parseCommits commits rl now).commitTraits
        = [("fixer", 0.4), ("tests", 0.2), ("docs", 0.2), ("wip", 0),
           ("chores", 0.2), ("chaotic", 0)] ∧
      (parseCommits commits rl now).highlights = "fixer, chores" := by
  have hE : commits.isEmpty = false := by
    cases commits with
    | nil => simp at hmsgs
    | cons c cs => rfl
  simp only [parseCommits, hE, Bool.false_eq_true, if_false]
  rw [hmsgs]
  exact ⟨commitTraitsOf_scenario, highlightsOf_scenario⟩

/-- The concrete five commits of the scenario, used as the C5 witness
input. -/
noncomputable def scenarioCommits : List Commit :=
  [{ sha := "a1", message := "fix: resolve null pointer bug", repo := "test/repo",
     date := some 1705226400000 },
   { sha := "a2", message := "fix: crash on login", repo := "test/repo",
     date := some 1705140000000 },
   { sha := "a3", message := "add unit test for parser", repo := "test/repo",
     date := some 1705053600000 },
   { sha := "a4", message := "update README docs", repo := "test/repo",
     date := some 1704967200000 },
   { sha := "a5", message := "chore: bump dependencies", repo := "test/repo",
     date := some 1704880800000 }]

/-- Witness for C5: the scenario evaluated at the concrete commit list. -/
theorem c5_trait_scenario_witness :
    (parseCommits scenarioCommits none 1705320000000).commitTraits
        = [("fixer", 0.4), ("tests", 0.2), ("docs", 0.2), ("wip", 0),
           ("chores", 0.2), ("chaotic", 0)] ∧
      (parseCommits scenarioCommits none 1705320000000).highlights
        = "fixer, chores" :=
  c5_trait_scenario scenarioCommits none 1705320000000 rfl

/-! Helper lemmas for the language aggregation. -/

lemma lookup_mem {β : Type} (k : String) (v : β) :
    ∀ l : List (String × β), List.lookup k l = some v → (k, v) ∈ l := by
  intro l
  induction l with
  | nil => intro h; simp [List.lookup] at h
  | cons a l ih =>
    obtain ⟨a1, a2⟩ := a
    intro h
    rw [List.lookup] at h
    cases hbeq : (k == a1) with
    | true =>
      rw [hbeq] at h
      have hk : k = a1 := eq_of_beq hbeq
      have hv : a2 = v := by injection h
      exact List.mem_cons.mpr (Or.inl (by rw [hk, hv]))
    | false =>
      rw [hbeq] at h
      exact List.mem_cons.mpr (Or.inr (ih h))

lemma bump_values_nonneg (lang : String) (bytes : ℚ) (hb : 0 ≤ bytes) :
    ∀ totals : List (String × ℚ), (∀ p ∈ totals, 0 ≤ p.2) →
      ∀ p ∈ bump totals lang bytes, 0 ≤ p.2 := by
  intro totals
  induction totals with
  | nil =>
    intro _ p hp
    unfold bump at hp
    rw [List.mem_singleton] at hp
    rw [hp]
    exact hb
  | cons a rest ih =>
    obtain ⟨l, b⟩ := a
    intro h p hp
    unfold bump at hp
    by_cases hl : l = lang
    · rw [if_pos hl] at hp
      rcases List.mem_cons.mp hp with hp | hp
      · rw [hp]
        have hb0 : 0 ≤ b := h (l, b) (List.mem_cons_self _ _)
        simpa using add_nonneg hb0 hb
      · exact h p (List.mem_cons.mpr (Or.inr hp))
    · rw [if_neg hl] at hp
      rcases List.mem_cons.mp hp with hp | hp
      · rw [hp]
        exact h (l, b) (List.mem_cons_self _ _)
      · exact ih (fun q hq => h q (List.mem_cons.mpr (Or.inr hq))) p hp

lemma bump_sum (lang : String) (bytes : ℚ) :
    ∀ totals : List (String × ℚ),
      ((bump totals lang bytes).map (fun p => p.2)).sum
        = (totals.map (fun p => p.2)).sum + bytes := by
  intro totals
  induction totals with
  | nil => simp [bump]
  | cons a rest ih =>
    obtain ⟨l, b⟩ := a
    unfold bump
    by_cases hl : l = lang
    · rw [if_pos hl]
      simp only [List.map_cons, List.sum_cons]
      ring
    · rw [if_neg hl]
      simp only [List.map_cons, List.sum_cons, ih]
      ring

lemma addRepoLangs_fst_nonneg (langs : List (String × ℚ))
    (hlangs : ∀ p ∈ langs, 0 ≤ p.2) :
    ∀ st : List (String × ℚ) × ℚ, (∀ p ∈ st.1, 0 ≤ p.2) →
      ∀ p ∈ (addRepoLangs st langs).1, 0 ≤ p.2 := by
  induction langs with
  | nil => intro st hst; exact hst
  | cons q qs ih =>
    intro st hst
    unfold addRepoLangs
    rw [List.foldl_cons]
    have hq : 0 ≤ q.2 := hlangs q (List.mem_cons_self _ _)
    exact ih (fun p hp => hlangs p (List.mem_cons.mpr (Or.inr hp)))
      (bump st.1 q.1 q.2, st.2 + q.2)
      (bump_values_nonneg q.1 q.2 hq st.1 hst)

lemma addRepoLangs_diff (langs : List (String × ℚ)) :
    ∀ st : List (String × ℚ) × ℚ,
      ((addRepoLangs st langs).1.map (fun p => p.2)).sum - (addRepoLangs st langs).2
        = (st.1.map (fun p => p.2)).sum - st.2 := by
  induction langs with
  | nil => intro st; rfl
  | cons q qs ih =>
    intro st
    unfold addRepoLangs
    rw [List.foldl_cons]
    have h := ih (bump st.1 q.1 q.2, st.2 + q.2)
    unfold addRepoLangs at h
    rw [h, bump_sum]
    ring

lemma foldl_langStep_nonneg (m : List (String × List (String × ℚ)))
    (hm : ∀ e ∈ m, ∀ p ∈ e.2, 0 ≤ p.2) :
    ∀ rs : List String, ∀ st : List (String × ℚ) × ℚ, (∀ p ∈ st.1, 0 ≤ p.2) →
      ∀ p ∈ (rs.foldl (langStep m) st).1, 0 ≤ p.2 := by
  intro rs
  induction rs with
  | nil => intro st hst; exact hst
  | cons r rs ih =>
    intro st hst
    rw [List.foldl_cons]
    apply ih
    unfold langStep
    cases hlk : List.lookup r m with
    | none => exact hst
    | some langs =>
      exact addRepoLangs_fst_nonneg langs
        (hm (r, langs) (lookup_mem r langs m hlk)) st hst

lemma foldl_langStep_diff (m : List (String × List (String × ℚ))) :
    ∀ rs : List String, ∀ st : List (String × ℚ) × ℚ,
      ((rs.foldl (langStep m) st).1.map (fun p => p.2)).sum
          - (rs.foldl (langStep m) st).2
        = (st.1.map (fun p => p.2)).sum - st.2 := by
  intro rs
  induction rs with
  | nil => intro st; rfl
  | cons r rs ih =>
    intro st
    rw [List.foldl_cons, ih]
    unfold langStep
    cases hlk : List.lookup r m with
    | none => rfl
    | some langs => exact addRepoLangs_diff langs st

lemma langState_fst_nonneg (repos : List String)
    (m : List (String × List (String × ℚ)))
    (hm : ∀ e ∈ m, ∀ p ∈ e.2, 0 ≤ p.2) :
    ∀ p ∈ (langState repos m).1, 0 ≤ p.2 :=
  foldl_langStep_nonneg m hm (userReposOf repos) ([], 0) (by simp)

lemma langState_sum (repos : List String) (m : List (String × List (String × ℚ))) :
    ((langState repos m).1.map (fun p => p.2)).sum = (langState repos m).2 := by
  have h := foldl_langStep_diff m (userReposOf repos) ([], 0)
  unfold langState
  simp only [List.map_nil, List.sum_nil] at h
  linarith

lemma sum_map_div (l : List (String × ℚ)) (g : ℚ) :
    (l.map (fun p => p.2 / g)).sum = (l.map (fun p => p.2)).sum / g := by
  induction l with
  | nil => simp
  | cons p l ih => simp [add_div, ih]

lemma sum_round4q_err (g : ℚ) :
    ∀ l : List (String × ℚ),
      |(l.map (fun p => round4q (p.2 / g))).sum - (l.map (fun p => p.2 / g)).sum|
        ≤ (l.length : ℚ) / 20000 := by
  intro l
  induction l with
  | nil => simp
  | cons p l ih =>
    simp only [List.map_cons, List.sum_cons, List.length_cons]
    have h1 := round4q_err (p.2 / g)
    have h2 : |round4q (p.2 / g) + (l.map (fun p => round4q (p.2 / g))).sum
        - (p.2 / g + (l.map (fun p => p.2 / g)).sum)|
        ≤ |round4q (p.2 / g) - p.2 / g|
          + |(l.map (fun p => round4q (p.2 / g))).sum
            - (l.map (fun p => p.2 / g)).sum| := by
      have heq : round4q (p.2 / g) + (l.map (fun p => round4q (p.2 / g))).sum
          - (p.2 / g + (l.map (fun p => p.2 / g)).sum)
          = (round4q (p.2 / g) - p.2 / g)
            + ((l.map (fun p => round4q (p.2 / g))).sum
              - (l.map (fun p => p.2 / g)).sum) := by ring
      rw [heq]
      exact abs_add _ _
    have h3 : ((l.length : ℚ) + 1) / 20000 = 1/20000 + (l.length : ℚ) / 20000 := by
      ring
    push_cast
    rw [h3]
    exact le_trans h2 (add_le_add h1 ih)

/-- The one commit of the C4 language inputs. -/
noncomputable def langCommit : Commit :=
  { sha := "s", message := "m", repo := "r", date := some 0 }

lemma round4q_one_third : round4q ((1:ℚ) / (0+1+1+1)) = 3333/10000 := by
  rw [show ((1:ℚ) / (0+1+1+1)) = 1/3 by norm_num,
    round4q_eq (1/3) 3333 (by norm_num) (by norm_num)]
  norm_num

/-- Counterexample for C4: one commit touching one repo holding three
languages of one byte each; every share rounds to 0.3333 and the values sum
to 0.9999, not exactly 1. -/
theorem c4_counterexample :
    (parseCommits [langCommit] (some [("r", [("A", 1), ("B", 1), ("C", 1)])]) 0).languages
        = [("A", 3333/10000), ("B", 3333/10000), ("C", 3333/10000)] ∧
      ((parseCommits [langCommit]
            (some [("r", [("A", 1), ("B", 1), ("C", 1)])]) 0).languages.map
          (fun p => p.2)).sum ≠ 1 := by
  have hE : ([langCommit] : List Commit).isEmpty = false := rfl
  have hls : langState ["r"] [("r", [("A", (1:ℚ)), ("B", 1), ("C", 1)])]
      = ([("A", 1), ("B", 1), ("C", 1)], 0+1+1+1) := rfl
  have hlang : (parseCommits [langCommit]
      (some [("r", [("A", 1), ("B", 1), ("C", 1)])]) 0).languages
      = [("A", 3333/10000), ("B", 3333/10000), ("C", 3333/10000)] := by
    simp only [parseCommits, hE, Bool.false_eq_true, if_false]
    rw [show ([langCommit].map (fun c => c.repo)) = ["r"] from rfl]
    simp only [languagesOf, hls]
    rw [if_pos (by norm_num)]
    simp only [List.map_cons, List.map_nil, round4q_one_third]
  refine ⟨hlang, ?_⟩
  rw [hlang]
  simp only [List.map_cons, List.map_nil, List.sum_cons, List.sum_nil]
  norm_num

/-- C4 (amended): with non-negative byte counts, every language value is
non-negative; the mapping is empty when no language map is supplied or the
grand total is zero; and when non-empty the values sum to 1 only up to the
per-language rounding error of at most 1/20000 each (rounding each share to 4
decimals can make the sum differ from 1, see the counterexample). -/
theorem c4_languages_amended (commits : List Commit)
    (rl : Option (List (String × List (String × ℚ)))) (now : ℝ)
    (hbytes : ∀ m, rl = some m → ∀ e ∈ m, ∀ p ∈ e.2, 0 ≤ p.2) :
    (∀ p ∈ (parseCommits commits rl now).languages, 0 ≤ p.2) ∧
    (rl = none → (parseCommits commits rl now).languages = []) ∧
    (∀ m, rl = some m → (langState (commits.map (fun c => c.repo)) m).2 = 0 →
      (parseCommits commits rl now).languages = []) ∧
    ((parseCommits commits rl now).languages ≠ [] →
      |((parseCommits commits rl now).languages.map (fun p => p.2)).sum - 1|
        ≤ ((parseCommits commits rl now).languages.length : ℚ) / 20000) := by
  cases hE : commits.isEmpty with
  | true =>
    have he : commits = [] := by
      cases commits with
      | nil => rfl
      | cons c cs => simp [List.isEmpty] at hE
    subst he
    refine ⟨?_, ?_, ?_, ?_⟩ <;> simp [parseCommits]
  | false =>
    simp only [parseCommits, hE, Bool.false_eq_true, if_false]
    cases rl with
    | none =>
      refine ⟨?_, ?_, ?_, ?_⟩ <;> simp [languagesOf]
    | some m =>
      have hm := hbytes m rfl
      simp only [languagesOf]
      by_cases hg : 0 < (langState (commits.map (fun c => c.repo)) m).2
      · rw [if_pos hg]
        refine ⟨?_, ?_, ?_, ?_⟩
        · intro p hp
          obtain ⟨q, hq, hpe⟩ := List.mem_map.mp hp
          rw [← hpe]
          have hq2 : 0 ≤ q.2 := langState_fst_nonneg _ m hm q hq
          exact round4q_nonneg (div_nonneg hq2 hg.le)
        · intro hcon
          exact Option.noConfusion hcon
        · intro m' hm' hzero
          injection hm' with hmm
          subst hmm
          exact absurd hzero hg.ne'
        · intro hne
          have hsum : ((langState (commits.map (fun c => c.repo)) m).1.map
              (fun p => p.2)).sum
              = (langState (commits.map (fun c => c.repo)) m).2 :=
            langState_sum _ m
          have hexact : ((langState (commits.map (fun c => c.repo)) m).1.map
              (fun p => p.2 / (langState (commits.map (fun c => c.repo)) m).2)).sum
              = 1 := by
            rw [sum_map_div, hsum, div_self hg.ne']
          have herr := sum_round4q_err
            (langState (commits.map (fun c => c.repo)) m).2
            (langState (commits.map (fun c => c.repo)) m).1
          rw [hexact] at herr
          have hmapeq : (((langState (commits.map (fun c => c.repo)) m).1.map
              (fun p => (p.1, round4q
                (p.2 / (langState (commits.map (fun c => c.repo)) m).2)))).map
              (fun p => p.2))
              = (langState (commits.map (fun c => c.repo)) m).1.map
                (fun p => round4q
                  (p.2 / (langState (commits.map (fun c => c.repo)) m).2)) := by
            rw [List.map_map]
            rfl
          have hlen : ((langState (commits.map (fun c => c.repo)) m).1.map
              (fun p => (p.1, round4q
                (p.2 / (langState (commits.map (fun c => c.repo)) m).2)))).length
              = (langState (commits.map (fun c => c.repo)) m).1.length :=
            List.length_map _ _
          rw [hmapeq, hlen]
          exact herr
      · rw [if_neg hg]
        refine ⟨?_, ?_, ?_, ?_⟩
        · intro p hp
          exact absurd hp (List.not_mem_nil p)
        · intro _
          rfl
        · intro m' _ _
          rfl
        · intro h
          exact absurd rfl h

/-- Witness for the amended C4 at the concrete three-language input. -/
theorem c4_languages_amended_witness :
    (∀ p ∈ (parseCommits [langCommit]
        (some [("r", [("A", 1), ("B", 1), ("C", 1)])]) 0).languages, 0 ≤ p.2) ∧
    ((some [("r", [("A", (1:ℚ)), ("B", 1), ("C", 1)])] :
        Option (List (String × List (String × ℚ)))) = none →
      (parseCommits [langCommit]
        (some [("r", [("A", 1), ("B", 1), ("C", 1)])]) 0).languages = []) ∧
    (∀ m, (some [("r", [("A", (1:ℚ)), ("B", 1), ("C", 1)])] :
        Option (List (String × List (String × ℚ)))) = some m →
      (langState ([langCommit].map (fun c => c.repo)) m).2 = 0 →
      (parseCommits [langCommit]
        (some [("r", [("A", 1), ("B", 1), ("C", 1)])]) 0).languages = []) ∧
    ((parseCommits [langCommit]
        (some [("r", [("A", 1), ("B", 1), ("C", 1)])]) 0).languages ≠ [] →
      |((parseCommits [langCommit]
          (some [("r", [("A", 1), ("B", 1), ("C", 1)])]) 0).languages.map
          (fun p => p.2)).sum - 1|
        ≤ ((parseCommits [langCommit]
            (some [("r", [("A", 1), ("B", 1), ("C", 1)])]) 0).languages.length : ℚ)
          / 20000) :=
  c4_languages_amended [langCommit] (some [("r", [("A", 1), ("B", 1), ("C", 1)])]) 0
    (by
      intro m hm e he p hp
      injection hm with hmm
      subst hmm
      simp only [List.mem_singleton] at he
      subst he
      simp only [List.mem_cons, List.not_mem_nil, or_false] at hp
      rcases hp with hp | hp | hp <;> rw [hp] <;> norm_num)
